import Mathlib

/-!
Verification of the Share-of-Voice (SoV) composite scoring engine.

This file shallowly embeds the scoring pipeline of the repository
(`sov_calculator.py`, `sentiment_analyzer.py`, `cross_keyword_analyzer.py`,
`sov_agent.py`) into Lean:

* Python strings are `List Char`; Python dicts are association lists.
* Python floats are modelled as exact rationals `ℚ`; Python ints as `ℤ`/`ℕ`.
* `re.findall(r'\b' + re.escape(p) + r'\b', text)` and the corresponding
  `re.search` are modelled by an explicit left-to-right scanner over the
  character list with word-boundary checks on both sides.
-/

namespace SoV

/-- Python strings, as character lists. -/
abbrev Str := List Char

/-- Coerce a Lean string literal into the model's string type. -/
def str (s : String) : Str := s.data

/-- Python dicts keyed by strings, as association lists (insertion order). -/
abbrev AList (α : Type) := List (Str × α)

/-- The `lookup m k`: first binding of key `k` in `m`, like Python `m[k]` presence. -/
def lookup {α : Type} : AList α → Str → Option α
  | [], _ => none
  | (k, v) :: m, k' => if k = k' then some v else lookup m k'

/-- Python `m.get(k, d)`. -/
def getD {α : Type} (m : AList α) (k : Str) (d : α) : α :=
  (lookup m k).getD d

/-- Sum of the values of an association list (Python `sum(m.values())`,
for dicts whose keys are distinct). -/
def sumVals (m : AList ℚ) : ℚ := (m.map Prod.snd).sum

/-- Python `str.lower()` (ASCII case folding suffices for the tracked brands). -/
def lowerStr (s : Str) : Str := s.map Char.toLower

/-- Python `str.upper()`. -/
def upperStr (s : Str) : Str := s.map Char.toUpper

/-- A regex word character (`\w`): alphanumeric or underscore. -/
def isWordChar (c : Char) : Bool := c.isAlphanum || c == '_'

/-- Word-character test on an optional character; outside the text counts
as a non-word character. -/
def wordOpt : Option Char → Bool
  | none => false
  | some c => isWordChar c

/-- A `\b` word boundary sits between two adjacent positions whose
word-character statuses differ. -/
def isBoundary (a b : Option Char) : Bool := wordOpt a != wordOpt b

/-- The pattern `\b p \b` matches at the start of `s`, where `prev` is the
character immediately before `s` (or `none` at the start of the text):
`p` is a literal prefix of `s` and word boundaries hold on both sides. -/
def wbMatch (p : Str) (prev : Option Char) (s : Str) : Bool :=
  p.isPrefixOf s && isBoundary prev s.head? && isBoundary p.getLast? (s.get? p.length)

/-- The `re.search(r'\b p \b', text)` as a Boolean: scan left to right for a
word-bounded occurrence of `p`. -/
def searchWB (p : Str) (prev : Option Char) (s : Str) : Bool :=
  match s with
  | [] => false
  | c :: rest => wbMatch p prev (c :: rest) || searchWB p (some c) rest

/-- Left-to-right scanner behind `findallWB`: `skip` is the number of
characters of the current match's span still to be passed over before the next
match may start (`re.findall` matches are non-overlapping). -/
def findallGo (p : Str) (skip : ℕ) (prev : Option Char) (s : Str) : ℕ :=
  match s, skip with
  | [], _ => 0
  | c :: rest, Nat.succ k => findallGo p k (some c) rest
  | c :: rest, 0 =>
    if wbMatch p prev (c :: rest) then
      1 + findallGo p (p.length - 1) (some c) rest
    else
      findallGo p 0 (some c) rest

/-- The `len(re.findall(r'\b p \b', text))`: count non-overlapping word-bounded
occurrences of `p`, scanning left to right and skipping each match's span. -/
def findallWB (p : Str) (prev : Option Char) (s : Str) : ℕ :=
  findallGo p 0 prev s

/-- Declarative occurrence count: the number of positions of `s` at which
`\b p \b` matches (not skipping match spans). For patterns made of word
characters this agrees with `findallWB`, proved below. -/
def occCount (p : Str) (prev : Option Char) (s : Str) : Nat :=
  match s with
  | [] => 0
  | c :: rest => (if wbMatch p prev (c :: rest) then 1 else 0) + occCount p (some c) rest

/-- Scanner behind `replaceAll`: `skip` counts characters of the current
match's span still to be consumed (they produce no output beyond the
replacement already emitted). -/
def replaceGo (pat rep : Str) (skip : ℕ) (s : Str) : Str :=
  match s, skip with
  | [], _ => []
  | _ :: rest, Nat.succ k => replaceGo pat rep k rest
  | c :: rest, 0 =>
    if !pat.isEmpty && pat.isPrefixOf (c :: rest) then
      rep ++ replaceGo pat rep (pat.length - 1) rest
    else
      c :: replaceGo pat rep 0 rest

/-- Python `s.replace(pat, rep)` for a non-empty `pat`: left-to-right,
non-overlapping replacement. -/
def replaceAll (pat rep : Str) (s : Str) : Str :=
  replaceGo pat rep 0 s

/-- Python `str.strip()`: remove whitespace from both ends. -/
def stripStr (s : Str) : Str :=
  ((s.dropWhile Char.isWhitespace).reverse.dropWhile Char.isWhitespace).reverse

/-- Numeric value of a digit string (most significant first). -/
def natOfDigits (s : Str) : ℕ := s.foldl (fun a c => a * 10 + (c.toNat - 48)) 0

/-- All characters are decimal digits. -/
def allDigits (s : Str) : Bool := s.all Char.isDigit

/-- Python `int(s)` on an already-stripped string: optional sign followed by
at least one digit; `none` when unparsable. -/
def parseIntS (s : Str) : Option ℤ :=
  match s with
  | [] => none
  | '+' :: rest => if allDigits rest ∧ rest ≠ [] then some (natOfDigits rest : ℤ) else none
  | '-' :: rest => if allDigits rest ∧ rest ≠ [] then some (-(natOfDigits rest : ℤ)) else none
  | _ => if allDigits s then some (natOfDigits s : ℤ) else none

/-- Unsigned decimal-float syntax: `digits`, `digits.digits`, `digits.` or
`.digits`, giving an exact rational. -/
def parseUnsignedQ (s : Str) : Option ℚ :=
  match s.splitOn '.' with
  | [ip] => if allDigits ip ∧ ip ≠ [] then some (natOfDigits ip : ℚ) else none
  | [ip, fp] =>
    if allDigits ip ∧ allDigits fp ∧ (ip ≠ [] ∨ fp ≠ []) then
      some ((natOfDigits ip : ℚ) + (natOfDigits fp : ℚ) / (10 : ℚ) ^ fp.length)
    else none
  | _ => none

/-- Python `float(s)` restricted to plain decimal notation (the fragment the
views strings use): optional sign, digits, optional decimal point. -/
def parseFloatS (s : Str) : Option ℚ :=
  match s with
  | '+' :: rest => parseUnsignedQ rest
  | '-' :: rest => (parseUnsignedQ rest).map Neg.neg
  | _ => parseUnsignedQ s

/-- Python `int(q)` on a float: truncation toward zero. -/
def truncQ (q : ℚ) : ℤ := q.num.tdiv (q.den : ℤ)

/-- The cleaning prefix of `_parse_views` (sov_calculator.py line 145):
`views_str.replace(",", "").replace(" views", "").strip()`. -/
def cleanViews (s : Str) : Str :=
  stripStr (replaceAll (str " views") [] (replaceAll (str ",") [] s))

/-- The fallible body of `_parse_views` (the `try` block, sov_calculator.py
lines 144–151): `none` exactly when the Python code would raise. -/
def parseViews? (s : Str) : Option ℤ :=
  let v := cleanViews s
  let u := upperStr v
  if u.contains 'K' then
    (parseFloatS (u.filter (fun c => c != 'K'))).map (fun q => truncQ (q * 1000))
  else if u.contains 'M' then
    (parseFloatS (u.filter (fun c => c != 'M'))).map (fun q => truncQ (q * 1000000))
  else
    parseIntS v

/-- The `SoVCalculator._parse_views`: the `except` clause substitutes 0 for any
failure. -/
def parse_views (s : Str) : ℤ := (parseViews? s).getD 0

/-! ## Data model -/

/-- One retrieved search/video result. Absent Python dict fields are modelled
by the corresponding `get` defaults (`title`/`snippet` → `""`, `keyword` →
`"unknown"`, `views`/`likes` → `"0"`, `comment_count` → 0, `age_days` → 30).
`polarity` is the per-result combined sentiment score
`(vader_compound + 1) / 2` supplied by the external sentiment collaborator
(sentiment_analyzer.py lines 31–35; the VADER/TextBlob libraries are outside
the core per the spec, which attaches `sentiment_polarity` to each record). -/
structure Result where
  title : Str := []
  snippet : Str := []
  keyword : Str := str "unknown"
  views : Str := str "0"
  likes : Str := str "0"
  comment_count : ℤ := 0
  age_days : ℚ := 30
  comments : List Str := []
  polarity : ℚ := 0
deriving DecidableEq

/-- The four SoV weights (config.py `SOV_WEIGHTS`). -/
structure Weights where
  presence_score : ℚ
  engagement_score : ℚ
  sentiment_score : ℚ
  dominance_score : ℚ
deriving DecidableEq

/-- The configuration a calculator is constructed with (config.py). -/
structure Config where
  BRAND_NAME : Str
  COMPETITOR_BRANDS : List Str
  SOV_WEIGHTS : Weights
deriving DecidableEq

/-- config.py `SOV_WEIGHTS`: presence 0.4, engagement 0.3, sentiment 0.2,
dominance 0.1. -/
def SOV_WEIGHTS : Weights := ⟨2/5, 3/10, 1/5, 1/10⟩

/-- The repository's configuration (config.py lines 12–41). -/
def atombergConfig : Config :=
  { BRAND_NAME := str "Atomberg",
    COMPETITOR_BRANDS :=
      [str "Havells", str "Crompton", str "Orient", str "Bajaj", str "Usha", str "Luminous"],
    SOV_WEIGHTS := SOV_WEIGHTS }

/-- The `self.all_brands = [self.brand_name] + self.competitors`. -/
def all_brands (cfg : Config) : List Str := cfg.BRAND_NAME :: cfg.COMPETITOR_BRANDS

/-! ## Mention counter (sov_calculator.py lines 20–55) -/

/-- The `(title + " " + snippet).lower()` — the text a result is matched on. -/
def textOf (r : Result) : Str := lowerStr (r.title ++ ' ' :: r.snippet)

/-- The `len(re.findall(r'\b' + re.escape(brand.lower()) + r'\b', text))` for one
result's text. -/
def mentionCount (b : Str) (r : Result) : ℕ := findallWB (lowerStr b) none (textOf r)

/-- The `re.search(pattern, text)` as used for brand attribution in
`calculate_engagement` and `calculate_ranking_dominance`. -/
def brandMatch (b : Str) (r : Result) : Bool := searchWB (lowerStr b) none (textOf r)

/-- The `mentions[brand]` after the loop: total occurrences over all results. -/
def mentionsOf (results : List Result) (b : Str) : ℕ :=
  (results.map (mentionCount b)).sum

/-- The `total_mentions` after the loop (accumulated result-major, brand-minor). -/
def total_mentions (cfg : Config) (results : List Result) : ℕ :=
  (results.map (fun r => ((all_brands cfg).map (fun b => mentionCount b r)).sum)).sum

/-- The `mention_percentages` dict (lines 41–49). -/
def mention_percentages (cfg : Config) (results : List Result) : AList ℚ :=
  if 0 < total_mentions cfg results then
    (all_brands cfg).map (fun b =>
      (b, ((mentionsOf results b : ℚ) / (total_mentions cfg results : ℚ)) * 100))
  else
    (all_brands cfg).map (fun b => (b, (0 : ℚ)))

/-- Return value of `count_mentions`. `raw_counts` is empty when no result was
processed (the defaultdict is only populated inside the result loop). -/
structure MentionsOut where
  raw_counts : AList ℕ
  total_mentions : ℕ
  percentages : AList ℚ
deriving DecidableEq

/-- The `SoVCalculator.count_mentions` (the `platform` argument is unused, as in
the source). -/
def count_mentions (cfg : Config) (results : List Result) (_platform : Str) : MentionsOut :=
  { raw_counts :=
      if results.isEmpty then []
      else (all_brands cfg).map (fun b => (b, mentionsOf results b)),
    total_mentions := total_mentions cfg results,
    percentages := mention_percentages cfg results }

/-! ## Engagement normalizer (sov_calculator.py lines 57–139) -/

/-- The platform tag selecting the rich-metrics path. -/
def youtube : Str := str "youtube"

/-- Per-result views: parsed for YouTube, placeholder 100 otherwise. -/
def viewsOf (platform : Str) (r : Result) : ℤ :=
  if platform = youtube then parse_views r.views else 100

/-- Per-result likes: parsed for YouTube, placeholder 10 otherwise. -/
def likesOf (platform : Str) (r : Result) : ℤ :=
  if platform = youtube then parse_views r.likes else 10

/-- Per-result comments: `comment_count` for YouTube, placeholder 5 otherwise. -/
def commentsOf (platform : Str) (r : Result) : ℤ :=
  if platform = youtube then r.comment_count else 5

/-- The `normalized_rate` (lines 76–88 for YouTube, 0.1 otherwise). -/
def normalizedRate (platform : Str) (r : Result) : ℚ :=
  if platform = youtube then
    let er : ℚ :=
      if 0 < viewsOf platform r then
        ((likesOf platform r + commentsOf platform r : ℤ) : ℚ) / (viewsOf platform r : ℚ)
      else 0
    if 0 < r.age_days then er * (30 / min r.age_days 365) else er
  else 1 / 10

/-- The per-result weighted `engagement_value` computed at line 91:
`views * 0.5 + (likes * 100) * 0.3 + (comments * 50) * 0.2`. It is assigned
but never accumulated into any returned quantity. -/
def engagement_value (platform : Str) (r : Result) : ℚ :=
  (viewsOf platform r : ℚ) * (1 / 2) + ((likesOf platform r : ℚ) * 100) * (3 / 10)
    + ((commentsOf platform r : ℚ) * 50) * (1 / 5)

/-- Brands that were attributed at least one result (the keys created in the
accumulation defaultdicts). -/
def matchedBrands (cfg : Config) (results : List Result) : List Str :=
  (all_brands cfg).filter (fun b => results.any (brandMatch b))

/-- The `engagement[brand]["count"]`. -/
def brandEngCount (results : List Result) (b : Str) : ℕ :=
  results.countP (brandMatch b)

/-- The `engagement[brand]["total_views"]`. -/
def brandViews (platform : Str) (results : List Result) (b : Str) : ℤ :=
  (results.map (fun r => if brandMatch b r then viewsOf platform r else 0)).sum

/-- The `engagement[brand]["total_likes"]`. -/
def brandLikes (platform : Str) (results : List Result) (b : Str) : ℤ :=
  (results.map (fun r => if brandMatch b r then likesOf platform r else 0)).sum

/-- The `engagement[brand]["total_comments"]`. -/
def brandComments (platform : Str) (results : List Result) (b : Str) : ℤ :=
  (results.map (fun r => if brandMatch b r then commentsOf platform r else 0)).sum

/-- The `engagement[brand]["engagement_rate"]` (the running sum of normalized
rates). -/
def brandRateSum (platform : Str) (results : List Result) (b : Str) : ℚ :=
  (results.map (fun r => if brandMatch b r then normalizedRate platform r else 0)).sum

/-- The `total_engagement = sum(e["total_views"] for e in engagement.values())`
(line 111): at this point the defaultdict's keys are exactly the matched
brands. -/
def total_engagement (cfg : Config) (platform : Str) (results : List Result) : ℤ :=
  ((matchedBrands cfg results).map (brandViews platform results)).sum

/-- The `engagement_percentages` (lines 115–126). -/
def engagement_percentages (cfg : Config) (platform : Str) (results : List Result) : AList ℚ :=
  if 0 < total_engagement cfg platform results then
    (all_brands cfg).map (fun b =>
      (b, ((brandViews platform results b : ℚ) / (total_engagement cfg platform results : ℚ)) * 100))
  else
    (all_brands cfg).map (fun b => (b, (0 : ℚ)))

/-- The `avg_engagement_rates` (lines 115–126). -/
def avg_engagement_rates (cfg : Config) (platform : Str) (results : List Result) : AList ℚ :=
  if 0 < total_engagement cfg platform results then
    (all_brands cfg).map (fun b =>
      (b, if 0 < brandEngCount results b then
            brandRateSum platform results b / (brandEngCount results b : ℚ)
          else 0))
  else
    (all_brands cfg).map (fun b => (b, (0 : ℚ)))

/-- One entry of `raw_engagement`. -/
structure RawEng where
  views : ℤ
  likes : ℤ
  comments : ℤ
deriving DecidableEq

/-- Return value of `calculate_engagement`. -/
structure EngagementOut where
  raw_engagement : AList RawEng
  total_engagement : ℤ
  percentages : AList ℚ
  avg_engagement_rates : AList ℚ
deriving DecidableEq

/-- The `SoVCalculator.calculate_engagement`. When the positive-total branch runs,
its defaultdict accesses add every tracked brand to the accumulator, so
`raw_engagement` then holds all brands; otherwise only the matched ones. -/
def calculate_engagement (cfg : Config) (results : List Result) (platform : Str) : EngagementOut :=
  { raw_engagement :=
      (if 0 < total_engagement cfg platform results then all_brands cfg
       else matchedBrands cfg results).map (fun b =>
        (b, { views := brandViews platform results b,
              likes := brandLikes platform results b,
              comments := brandComments platform results b })),
    total_engagement := total_engagement cfg platform results,
    percentages := engagement_percentages cfg platform results,
    avg_engagement_rates := avg_engagement_rates cfg platform results }

/-! ## Ranking dominance scorer (sov_calculator.py lines 155–188) -/

/-- The `position_score = max(0, 100 - (position - 1) * 5)` with `position =
idx + 1`. -/
def position_score (idx : ℕ) : ℚ := max 0 (100 - (idx : ℚ) * 5)

/-- The `dominance_scores[brand]` after the loop. -/
def brandDominance (results : List Result) (b : Str) : ℚ :=
  (results.enum.map (fun ir => if brandMatch b ir.2 then position_score ir.1 else 0)).sum

/-- The `total_dominance = sum(dominance_scores.values())`: keys are the matched
brands. -/
def total_dominance (cfg : Config) (results : List Result) : ℚ :=
  ((matchedBrands cfg results).map (brandDominance results)).sum

/-- The `dominance_percentages` (lines 177–182). -/
def dominance_percentages (cfg : Config) (results : List Result) : AList ℚ :=
  if 0 < total_dominance cfg results then
    (all_brands cfg).map (fun b =>
      (b, (brandDominance results b / total_dominance cfg results) * 100))
  else
    (all_brands cfg).map (fun b => (b, (0 : ℚ)))

/-- Return value of `calculate_ranking_dominance`. -/
structure DominanceOut where
  raw_scores : AList ℚ
  total_dominance : ℚ
  percentages : AList ℚ
deriving DecidableEq

/-- The `SoVCalculator.calculate_ranking_dominance` (the `platform` argument is
unused, as in the source). In the positive-total branch the percentage loop's
defaultdict accesses add every brand to `dominance_scores` before it is
returned. -/
def calculate_ranking_dominance (cfg : Config) (results : List Result) (_platform : Str) : DominanceOut :=
  { raw_scores :=
      (if 0 < total_dominance cfg results then all_brands cfg
       else matchedBrands cfg results).map (fun b => (b, brandDominance results b)),
    total_dominance := total_dominance cfg results,
    percentages := dominance_percentages cfg results }

/-! ## Sentiment aggregator (sentiment_analyzer.py) -/

/-- Python `" ".join(strings)`. -/
def joinSp : List Str → Str
  | [] => []
  | [s] => s
  | s :: rest => s ++ ' ' :: joinSp rest

/-- The text `analyze_sentiment` scores and matches: title, snippet, and (when
present) the first 50 comments (lines 22–28). -/
def sentText (r : Result) : Str :=
  let base := r.title ++ ' ' :: r.snippet
  if r.comments.isEmpty then base else base ++ ' ' :: joinSp (r.comments.take 50)

/-- Brand attribution in `analyze_sentiment` (lines 38–41): word-bounded search
of the lowered brand in the lowered combined text. -/
def sentMatch (b : Str) (r : Result) : Bool :=
  searchWB (lowerStr b) none (lowerStr (sentText r))

/-- The `brand_sentiments[brand]`: the combined scores of the results mentioning
the brand, in result order. -/
def sentScores (results : List Result) (b : Str) : List ℚ :=
  (results.filter (sentMatch b)).map Result.polarity

/-- The brand list hardcoded at sentiment_analyzer.py line 39. -/
def SENTIMENT_BRANDS : List Str :=
  [str "Atomberg", str "Havells", str "Crompton", str "Orient", str "Bajaj",
   str "Usha", str "Luminous"]

/-- The keys of `brand_sentiments` after the loop: exactly the brands with at
least one matching result (the defaultdict gains a key only on a match). -/
def mentionedSentBrands (bs : List Str) (results : List Result) : List Str :=
  bs.filter (fun b => !(sentScores results b).isEmpty)

/-- One entry of `sentiment_stats`. -/
structure SentStat where
  average_sentiment : ℚ
  positive_count : ℕ
  total_mentions : ℕ
  positive_ratio : ℚ
deriving DecidableEq

/-- The per-brand statistics (lines 49–67), including the zero-mention
default branch of the source. -/
def sentStatOf (results : List Result) (b : Str) : SentStat :=
  let sc := sentScores results b
  if sc.isEmpty then
    { average_sentiment := 1 / 2, positive_count := 0, total_mentions := 0,
      positive_ratio := 0 }
  else
    { average_sentiment := sc.sum / (sc.length : ℚ),
      positive_count := sc.countP (fun s => decide ((3 : ℚ) / 5 < s)),
      total_mentions := sc.length,
      positive_ratio :=
        if 0 < sc.length then
          ((sc.countP (fun s => decide ((3 : ℚ) / 5 < s)) : ℚ) / (sc.length : ℚ))
        else 0 }

/-- The `total_positive_mentions`, accumulated over the brands present in
`brand_sentiments`. -/
def total_positive_mentions (bs : List Str) (results : List Result) : ℕ :=
  ((mentionedSentBrands bs results).map
    (fun b => (sentScores results b).countP (fun s => decide ((3 : ℚ) / 5 < s)))).sum

/-- The `positive_sov` (lines 69–76), keyed by `sentiment_stats.keys()`. -/
def positive_sov_map (bs : List Str) (results : List Result) : AList ℚ :=
  (mentionedSentBrands bs results).map (fun b =>
    (b, if 0 < total_positive_mentions bs results then
          (((sentScores results b).countP (fun s => decide ((3 : ℚ) / 5 < s)) : ℚ)
            / (total_positive_mentions bs results : ℚ)) * 100
        else 0))

/-- Return value of `analyze_sentiment`. -/
structure SentimentOut where
  sentiment_stats : AList SentStat
  positive_sov : AList ℚ
  total_positive_mentions : ℕ
deriving DecidableEq

/-- The `SentimentAnalyzer.analyze_sentiment` (the `platform` argument is unused,
as in the source). -/
def analyze_sentiment (bs : List Str) (results : List Result) (_platform : Str) : SentimentOut :=
  { sentiment_stats :=
      (mentionedSentBrands bs results).map (fun b => (b, sentStatOf results b)),
    positive_sov := positive_sov_map bs results,
    total_positive_mentions := total_positive_mentions bs results }

/-! ## Weighted SoV combiner (sov_calculator.py lines 190–252) -/

/-- Return value of `calculate_sov_metrics`. -/
structure SovMetrics where
  presence_sov : AList ℚ
  engagement_sov : AList ℚ
  sentiment_sov : AList ℚ
  dominance_sov : AList ℚ
  weighted_sov : AList ℚ
  formula_weights : Weights
deriving DecidableEq

/-- The `SoVCalculator.calculate_sov_metrics`: the weighted composite per brand,
with `dict.get(brand, 0)` defaults for brands missing from a sub-map and the
`if dominance_sov else 0` guard of line 206. -/
def calculate_sov_metrics (cfg : Config) (mentions : MentionsOut)
    (engagement : EngagementOut) (sentiment : SentimentOut)
    (dominance : Option DominanceOut) : SovMetrics :=
  let presence_sov := mentions.percentages
  let engagement_sov := engagement.percentages
  let sentiment_sov := sentiment.positive_sov
  let dominance_sov := match dominance with
    | some d => d.percentages
    | none => []
  { presence_sov := presence_sov,
    engagement_sov := engagement_sov,
    sentiment_sov := sentiment_sov,
    dominance_sov := dominance_sov,
    weighted_sov := (all_brands cfg).map (fun b =>
      (b, getD presence_sov b 0 * cfg.SOV_WEIGHTS.presence_score
        + getD engagement_sov b 0 * cfg.SOV_WEIGHTS.engagement_score
        + getD sentiment_sov b 0 * cfg.SOV_WEIGHTS.sentiment_score
        + (if dominance_sov.isEmpty then 0 else getD dominance_sov b 0)
            * cfg.SOV_WEIGHTS.dominance_score)),
    formula_weights := cfg.SOV_WEIGHTS }

/-! ## Agent pipeline (sov_agent.py lines 94–133, 165–171) -/

/-- One platform's entry of `platform_sov` as assembled in
`SoVAgent.analyze_sov`. -/
structure PlatformSoV where
  mentions : MentionsOut
  engagement : EngagementOut
  sentiment : SentimentOut
  dominance : DominanceOut
  sov_metrics : SovMetrics
deriving DecidableEq

/-- The per-platform body of `SoVAgent.analyze_sov` (lines 106–129). -/
def analyze_platform (cfg : Config) (platform : Str) (results : List Result) : PlatformSoV :=
  let mentions := count_mentions cfg results platform
  let engagement := calculate_engagement cfg results platform
  let sentiment := analyze_sentiment SENTIMENT_BRANDS results platform
  let dominance := calculate_ranking_dominance cfg results platform
  { mentions := mentions, engagement := engagement, sentiment := sentiment,
    dominance := dominance,
    sov_metrics := calculate_sov_metrics cfg mentions engagement sentiment (some dominance) }

/-- The `SoVAgent.analyze_sov`: platforms with an empty result list are skipped
(`if not results: continue`, line 101). -/
def agent_analyze_sov (cfg : Config) (search_results : List (Str × List Result)) :
    List (Str × PlatformSoV) :=
  search_results.filterMap (fun pr =>
    if pr.2.isEmpty then none else some (pr.1, analyze_platform cfg pr.1 pr.2))

/-- Return value of `calculate_overall_sov`. -/
structure OverallSoV where
  sov_percentage : AList ℚ
  platforms_analyzed : List Str
  platform_count : ℕ
deriving DecidableEq

/-- The `SoVCalculator.calculate_overall_sov`: `none` models the early `return {}`
for an empty `platform_sov`; otherwise each brand's accumulated composite is
divided by `platform_count = len(platform_sov)`. -/
def calculate_overall_sov (cfg : Config) (platform_sov : List (Str × PlatformSoV)) :
    Option OverallSoV :=
  if platform_sov.isEmpty then none
  else some
    { sov_percentage := (all_brands cfg).map (fun b =>
        (b, ((platform_sov.map (fun p => getD p.2.sov_metrics.weighted_sov b 0)).sum)
          / (platform_sov.length : ℚ))),
      platforms_analyzed := platform_sov.map Prod.fst,
      platform_count := platform_sov.length }

/-! ## Cross-keyword analyzer (cross_keyword_analyzer.py) -/

/-- Python `p in s` on strings: substring containment. -/
def containsSub (p : Str) (s : Str) : Bool :=
  p.isPrefixOf s ||
    match s with
    | [] => false
    | _ :: rest => containsSub p rest

/-- Brand attribution in `analyze_keyword_performance` (line 35): plain
substring containment `brand.lower() in text`, not a word-bounded search. -/
def substrMatch (b : Str) (r : Result) : Bool := containsSub (lowerStr b) (textOf r)

/-- The `keyword_performance[keyword][brand]` after the grouping loop (lines
27–36): one increment per result of any platform list whose `keyword` field is
`k` and whose text contains the brand as a substring. -/
def keywordBrandCount (pd : List (Str × List Result)) (k b : Str) : ℕ :=
  (pd.map (fun pr =>
    (pr.2.filter (fun r => decide (r.keyword = k))).countP (substrMatch b))).sum

/-- Deduplication scanner: `seen` holds the keys already emitted. -/
def dedupFirstGo (seen : List Str) : List Str → List Str
  | [] => []
  | k :: rest =>
    if seen.contains k then dedupFirstGo seen rest
    else k :: dedupFirstGo (k :: seen) rest

/-- Deduplicate keeping first occurrences (Python dict key order). -/
def dedupFirst (l : List Str) : List Str := dedupFirstGo [] l

/-- The keys of `keyword_performance`: keywords of at least one result that
matched at least one brand. -/
def kwKeys (cfg : Config) (pd : List (Str × List Result)) : List Str :=
  (dedupFirst ((pd.map (fun pr => pr.2.map Result.keyword)).flatten)).filter
    (fun k => decide (0 < ((all_brands cfg).map (keywordBrandCount pd k)).sum))

/-- The returned `keyword_performance` mapping. By return time the SoV loop's
defaultdict reads (line 43) have filled every tracked brand into each inner
dict, so each keyword maps to a full per-brand count map. -/
def keyword_performance (cfg : Config) (pd : List (Str × List Result)) :
    List (Str × AList ℕ) :=
  (kwKeys cfg pd).map (fun k =>
    (k, (all_brands cfg).map (fun b => (b, keywordBrandCount pd k b))))

/-- The `keyword_sov` (lines 39–43): per keyword, each brand's share of that
keyword's total count (guarded by `total > 0`). -/
def keyword_sov (cfg : Config) (pd : List (Str × List Result)) :
    List (Str × AList ℚ) :=
  (keyword_performance cfg pd).filterMap (fun km =>
    let total := (km.2.map Prod.snd).sum
    if 0 < total then
      some (km.1, (all_brands cfg).map (fun b =>
        (b, (((getD km.2 b 0 : ℕ) : ℚ) / (total : ℚ)) * 100)))
    else none)

/-- Return value of `analyze_keyword_performance`. -/
structure KeywordAnalysis where
  keyword_performance : List (Str × AList ℕ)
  keyword_sov : List (Str × AList ℚ)
deriving DecidableEq

/-- The `CrossKeywordAnalyzer.analyze_keyword_performance`. -/
def analyze_keyword_performance (cfg : Config) (pd : List (Str × List Result)) :
    KeywordAnalysis :=
  { keyword_performance := keyword_performance cfg pd,
    keyword_sov := keyword_sov cfg pd }

/-- One flagged gap (cross_keyword_analyzer.py lines 71–78). -/
structure GapRecord where
  keyword : Str
  atomberg_sov : ℚ
  top_competitor : Str
  competitor_sov : ℚ
  gap : ℚ
  opportunity : Str
deriving DecidableEq

/-- One step of Python `max(..., key=lambda x: x[1])`: keep the current
maximum, replacing it only on a strictly larger value (so ties keep the
first). -/
def maxStep (acc y : Str × ℚ) : Str × ℚ := if acc.2 < y.2 then y else acc

/-- Python `max(items, key=lambda x: x[1])` over a dict's items: the first
pair attaining the maximal value, `none` on an empty dict. -/
def maxBySnd (l : List (Str × ℚ)) : Option (Str × ℚ) :=
  match l with
  | [] => none
  | x :: xs => some (xs.foldl maxStep x)

/-- The per-keyword body of `identify_content_gaps` (lines 57–78): emit a
record when the leading competitor's share strictly exceeds the brand's share
plus 10, with priority `"high"` for a gap strictly above 20. -/
def gapRecordOf (cfg : Config) (k : Str) (m : AList ℚ) : Option GapRecord :=
  let brand_sov := getD m cfg.BRAND_NAME 0
  match maxBySnd (cfg.COMPETITOR_BRANDS.map (fun c => (c, getD m c 0))) with
  | none => none
  | some top =>
    if brand_sov + 10 < top.2 then
      some { keyword := k, atomberg_sov := brand_sov, top_competitor := top.1,
             competitor_sov := top.2, gap := top.2 - brand_sov,
             opportunity := if 20 < top.2 - brand_sov then str "high" else str "medium" }
    else none

/-- Stable insertion into a descending-by-gap list (Python `list.sort` with
`reverse=True` is stable). -/
def insertGapDesc (g : GapRecord) : List GapRecord → List GapRecord
  | [] => [g]
  | h :: t => if h.gap ≤ g.gap then g :: h :: t else h :: insertGapDesc g t

/-- The `gaps.sort(key=lambda x: x["gap"], reverse=True)`. -/
def sortGapsDesc (l : List GapRecord) : List GapRecord := l.foldr insertGapDesc []

/-- The `CrossKeywordAnalyzer.identify_content_gaps`, taking the extracted
`keyword_sov` mapping. -/
def identify_content_gaps (cfg : Config) (ksov : List (Str × AList ℚ)) :
    List GapRecord :=
  sortGapsDesc (ksov.filterMap (fun km => gapRecordOf cfg km.1 km.2))

/-- Modelled from the claim's words: the maximum competitor share in a
keyword's ShareMap (0 when there are no competitors), for comparison with the
source's first-maximum scan `maxBySnd`. -/
def maxCompetitorShare (cfg : Config) (m : AList ℚ) : ℚ :=
  match cfg.COMPETITOR_BRANDS.map (fun c => getD m c 0) with
  | [] => 0
  | v :: vs => vs.foldl max v

/-- Modelled from the spec's words (§4.6 claims the Gap Detector performs
"the same whole-word matching as 4.1"): the per-keyword presence tally using
the Mention Counter's word-bounded matching, for comparison with the source's
`keywordBrandCount`. -/
def keywordBrandCountWholeWord (pd : List (Str × List Result)) (k b : Str) : ℕ :=
  (pd.map (fun pr =>
    (pr.2.filter (fun r => decide (r.keyword = k))).countP (brandMatch b))).sum

/-- A one-brand demo configuration for concrete instantiations. -/
def demoCfg : Config := ⟨str "fan", [], SOV_WEIGHTS⟩

/-- A single matching YouTube result with integer views and positive
polarity. -/
def demoResults : List Result :=
  [{ title := str "a fan", views := str "200", polarity := 1 }]

/-- The demo brand list for the sentiment aggregator. -/
def demoBrands : List Str := [str "fan"]

/-- A keyword map where the top competitor leads by 15 points. -/
def demoMap1 : AList ℚ := [(str "Atomberg", 30), (str "Havells", 45)]

/-- A keyword map where the top competitor leads by exactly 10 points. -/
def demoMap2 : AList ℚ := [(str "Atomberg", 30), (str "Havells", 40)]

/-- A two-keyword `keyword_sov` input for the gap detector. -/
def demoKS : List (Str × AList ℚ) :=
  [(str "smart fan", demoMap1), (str "WiFi fan", demoMap2)]

/-- The last character of a run, with a default for the empty run. -/
def lastD (q : Str) (a : Char) : Char :=
  match q with
  | [] => a
  | c :: q' => lastD q' c

/-- The character preceding the position right after `q`, when the scan
entered `q` with preceding character `prev`. -/
def lastO (q : Str) (prev : Option Char) : Option Char :=
  match q with
  | [] => prev
  | d :: q' => some (lastD q' d)

/-! ## Helper lemmas on association lists and list sums -/

theorem lookup_map_self {α : Type} (f : Str → α) {l : List Str} {b : Str} (hb : b ∈ l) :
    lookup (l.map fun x => (x, f x)) b = some (f b) := by
  induction l with
  | nil => cases hb
  | cons a l ih =>
    simp only [List.map_cons, lookup]
    by_cases h : a = b
    · subst h; simp
    · simp only [h, if_false]
      exact ih ((List.mem_cons.mp hb).resolve_left (fun hba => h hba.symm))

theorem getD_map_self {α : Type} (f : Str → α) {l : List Str} {b : Str} (hb : b ∈ l)
    (d : α) : getD (l.map fun x => (x, f x)) b d = f b := by
  rw [getD, lookup_map_self f hb, Option.getD_some]

theorem lookup_map_eq_none {α : Type} (f : Str → α) {l : List Str} {b : Str} (hb : b ∉ l) :
    lookup (l.map fun x => (x, f x)) b = none := by
  induction l with
  | nil => rfl
  | cons a l ih =>
    simp only [List.map_cons, lookup]
    have ha : ¬a = b := fun h => hb (h ▸ List.mem_cons_self a l)
    simp only [ha, if_false]
    exact ih (fun h => hb (List.mem_cons_of_mem a h))

theorem sumVals_map (f : Str → ℚ) (l : List Str) :
    sumVals (l.map fun x => (x, f x)) = (l.map f).sum := by
  simp only [sumVals, List.map_map]
  rfl

theorem sum_map_add {α M : Type} [AddCommMonoid M] (l : List α) (f g : α → M) :
    (l.map fun x => f x + g x).sum = (l.map f).sum + (l.map g).sum := by
  induction l with
  | nil => simp
  | cons a l ih => simp only [List.map_cons, List.sum_cons, ih]; abel

theorem sum_map_swap {α β M : Type} [AddCommMonoid M] (l₁ : List α) (l₂ : List β)
    (f : α → β → M) :
    (l₁.map fun a => (l₂.map (f a)).sum).sum
      = (l₂.map fun b => (l₁.map fun a => f a b).sum).sum := by
  induction l₁ with
  | nil => simp
  | cons a l ih =>
    simp only [List.map_cons, List.sum_cons, ih, ← sum_map_add]

theorem sum_map_div_mul {α : Type} (l : List α) (f : α → ℚ) (t c : ℚ) :
    (l.map fun x => f x / t * c).sum = (l.map f).sum / t * c := by
  induction l with
  | nil => simp
  | cons a l ih => simp only [List.map_cons, List.sum_cons, ih]; ring

theorem sum_map_filter_of_zero {α M : Type} [AddCommMonoid M] {p : α → Bool} {f : α → M}
    {l : List α} (h : ∀ a ∈ l, p a = false → f a = 0) :
    ((l.filter p).map f).sum = (l.map f).sum := by
  induction l with
  | nil => simp
  | cons a l ih =>
    have ih' := ih (fun x hx => h x (List.mem_cons_of_mem a hx))
    by_cases hp : p a
    · simp [List.filter_cons, hp, ih']
    · simp only [List.filter_cons, Bool.not_eq_true] at *
      simp [hp, ih', h a (List.mem_cons_self a l) (by simpa using hp)]

theorem percentages_sum_eq_100 {α : Type} (l : List α) (f : α → ℚ) (t : ℚ) (ht : t ≠ 0)
    (hsum : (l.map f).sum = t) :
    (l.map fun x => f x / t * 100).sum = 100 := by
  rw [sum_map_div_mul, hsum, div_self ht, one_mul]

/-- A word-bounded occurrence is in particular a substring occurrence. -/
theorem searchWB_containsSub (p : Str) :
    ∀ (s : Str) (prev : Option Char), searchWB p prev s = true → containsSub p s = true := by
  intro s
  induction s with
  | nil => intro prev h; simp [searchWB] at h
  | cons c rest ih =>
    intro prev h
    rw [searchWB, Bool.or_eq_true] at h
    rw [containsSub, Bool.or_eq_true]
    rcases h with h | h
    · rw [wbMatch, Bool.and_eq_true, Bool.and_eq_true] at h
      exact Or.inl h.1.1
    · exact Or.inr (ih (some c) h)



/-! ## Claim theorems -/

/-- C1: for every brand of the BrandSet and any sub-score maps, the composite
returned by `calculate_sov_metrics` under the repository's weights equals
0.4 × presence share + 0.3 × engagement share + 0.2 × sentiment share +
0.1 × dominance share, a brand missing from a sub-map contributing 0 for that
term. -/
theorem C1_weighted_composite (cfg : Config) (mentions : MentionsOut)
    (engagement : EngagementOut) (sentiment : SentimentOut)
    (dominance : Option DominanceOut) (b : Str) (hb : b ∈ all_brands cfg)
    (hw : cfg.SOV_WEIGHTS = SOV_WEIGHTS) :
    getD (calculate_sov_metrics cfg mentions engagement sentiment dominance).weighted_sov b 0
      = (2 / 5) * getD mentions.percentages b 0
        + (3 / 10) * getD engagement.percentages b 0
        + (1 / 5) * getD sentiment.positive_sov b 0
        + (1 / 10) * (match dominance with
            | some d => getD d.percentages b 0
            | none => 0) := by
  unfold calculate_sov_metrics
  simp only
  rw [getD_map_self _ hb, hw]
  cases dominance with
  | none =>
    simp only [List.isEmpty_nil, if_true, SOV_WEIGHTS]
    ring
  | some d =>
    simp only [SOV_WEIGHTS]
    by_cases hemp : d.percentages.isEmpty
    · rw [List.isEmpty_iff] at hemp
      simp only [hemp, List.isEmpty_nil, if_true]
      simp only [getD, lookup, Option.getD_none]
      ring
    · simp only [hemp, Bool.false_eq_true, if_false]
      ring

/-- Witness for C1 at the spec's fixture: presence 50, engagement 20,
sentiment 80, dominance 10 gives composite 43. -/
theorem C1_weighted_composite_witness :
    getD (calculate_sov_metrics atombergConfig
        ⟨[], 0, [(str "Atomberg", 50)]⟩
        ⟨[], 0, [(str "Atomberg", 20)], []⟩
        ⟨[], [(str "Atomberg", 80)], 0⟩
        (some ⟨[], 0, [(str "Atomberg", 10)]⟩)).weighted_sov (str "Atomberg") 0
      = 43 := by
  rw [C1_weighted_composite atombergConfig _ _ _ _ _ (by decide) rfl]
  norm_num [getD, lookup]

/-- Counterexample to C3 as stated: a text containing the brand only inside a
longer word ("Fan" in "Fanatic") does increment the per-keyword count of the
Cross-Keyword Gap Detector, while the Mention Counter's word-bounded matcher
finds nothing. -/
theorem C3_counterexample :
    keywordBrandCount
        [(str "google", [{ title := str "Fanatic", keyword := str "smart fan" }])]
        (str "smart fan") (str "Fan") = 1
    ∧ getD (getD (analyze_keyword_performance
          ⟨str "Fan", [], SOV_WEIGHTS⟩
          [(str "google", [{ title := str "Fanatic", keyword := str "smart fan" }])]).keyword_performance
        (str "smart fan") []) (str "Fan") 0 = 1
    ∧ mentionCount (str "Fan") { title := str "Fanatic" } = 0 := by
  refine ⟨by decide, by decide, by decide⟩

/-- C3 (amended): the Cross-Keyword Gap Detector attributes a result to a
brand by case-insensitive substring containment, which is weaker than the
Mention Counter's whole-word matching: every word-bounded match is also a
substring match, so the whole-word per-keyword tally never exceeds the
detector's tally, and a brand occurring only inside a longer word still
counts. -/
theorem C3_substring_attribution :
    (∀ (b : Str) (r : Result), brandMatch b r = true → substrMatch b r = true)
    ∧ (∀ (pd : List (Str × List Result)) (k b : Str),
        keywordBrandCountWholeWord pd k b ≤ keywordBrandCount pd k b)
    ∧ substrMatch (str "Fan") { title := str "Fanatic" } = true := by
  have hmono : ∀ (b : Str) (r : Result), brandMatch b r = true → substrMatch b r = true := by
    intro b r h
    exact searchWB_containsSub _ _ _ h
  refine ⟨hmono, ?_, by decide⟩
  intro pd k b
  unfold keywordBrandCountWholeWord keywordBrandCount
  apply List.sum_le_sum
  intro pr _
  apply List.countP_mono_left
  intro r _ h
  exact hmono b r h

/-- Witness for C3 (amended) at a concrete word-bounded match. -/
theorem C3_substring_attribution_witness :
    substrMatch (str "fan") { title := str "the fan" } = true
    ∧ keywordBrandCountWholeWord
        [(str "g", [{ title := str "a fan", keyword := str "k" }])] (str "k") (str "fan")
      ≤ keywordBrandCount
        [(str "g", [{ title := str "a fan", keyword := str "k" }])] (str "k") (str "fan") :=
  ⟨C3_substring_attribution.1 _ _ (by decide), C3_substring_attribution.2.1 _ _ _⟩

/-- C4 is a code bug: on a result list that never mentions the focal brand the
sentiment maps drop the brand entirely (no key at all), even though the
source's own zero-mention branch (sentiment_analyzer.py lines 61–67) was
written to default it to average 0.5 — that branch is unreachable because the
accumulating defaultdict only gains keys on a match. The percentage maps of
the calculator do keep the focal brand at 0. -/
theorem C4_zero_mention_brand_missing :
    (analyze_sentiment SENTIMENT_BRANDS [{ title := str "great product" }]
        youtube).sentiment_stats = []
    ∧ lookup (analyze_sentiment SENTIMENT_BRANDS [{ title := str "great product" }]
        youtube).sentiment_stats (str "Atomberg") = none
    ∧ lookup (analyze_sentiment SENTIMENT_BRANDS [{ title := str "great product" }]
        youtube).positive_sov (str "Atomberg") = none
    ∧ lookup (count_mentions atombergConfig [{ title := str "great product" }]
        youtube).percentages (str "Atomberg") = some 0
    ∧ lookup (calculate_engagement atombergConfig [{ title := str "great product" }]
        youtube).percentages (str "Atomberg") = some 0
    ∧ lookup (calculate_ranking_dominance atombergConfig [{ title := str "great product" }]
        youtube).percentages (str "Atomberg") = some 0
    ∧ (sentStatOf [{ title := str "great product" }] (str "Atomberg")).average_sentiment
        = 1 / 2 := by
  have hsc : sentScores [{ title := str "great product" }] (str "Atomberg") = [] := by decide
  refine ⟨by decide, by decide, by decide, by decide, by decide, by decide, ?_⟩
  rw [sentStatOf, hsc]
  rfl

/-- Truncation toward zero of an integer rational is that integer. -/
theorem truncQ_intCast (n : ℤ) : truncQ (n : ℚ) = n := by
  simp [truncQ]

/-- C9: `_parse_views` is total — the fallible parsing core yielding `none`
(the Python `try` body raising) makes the function return 0 — and on
well-formed input it strips commas and a " views" suffix and scales a K suffix
by 1000 and an M suffix by 1000000. -/
theorem C9_parse_views_recovery :
    (∀ s : Str, parseViews? s = none → parse_views s = 0)
    ∧ parse_views (str "1,234 views") = 1234
    ∧ parse_views (str "1.5K") = 1500
    ∧ parse_views (str "2M") = 2000000
    ∧ parseViews? (str "12abc") = none
    ∧ parse_views (str "12abc") = 0
    ∧ parseViews? (str "") = none
    ∧ parse_views (str "") = 0 := by
  refine ⟨?_, by decide, ?_, ?_, by decide, by decide, by decide, by decide⟩
  · intro s h
    simp [parse_views, h]
  · have h1 : cleanViews (str "1.5K") = str "1.5K" := by decide
    have h2 : upperStr (str "1.5K") = str "1.5K" := by decide
    have h3 : (str "1.5K").contains 'K' = true := by decide
    have h4 : (str "1.5K").filter (fun c => c != 'K') = ['1', '.', '5'] := by decide
    have h5 : (['1', '.', '5'] : Str).splitOn '.' = [['1'], ['5']] := by decide
    have ha1 : allDigits ['1'] = true := by decide
    have ha5 : allDigits ['5'] = true := by decide
    have hn1 : natOfDigits ['1'] = 1 := by decide
    have hn5 : natOfDigits ['5'] = 5 := by decide
    have h6 : parseFloatS ['1', '.', '5'] = some ((3 : ℚ) / 2) := by
      rw [show parseFloatS ['1', '.', '5'] = parseUnsignedQ ['1', '.', '5'] from rfl]
      rw [parseUnsignedQ, h5]
      simp only [ha1, ha5, hn1, hn5]
      norm_num
    have harg : ((3 : ℚ) / 2) * 1000 = ((1500 : ℤ) : ℚ) := by norm_num
    simp only [parse_views, parseViews?, h1, h2, h3, if_true, h4, h6, Option.map_some',
      Option.getD_some, harg, truncQ_intCast]
  · have h1 : cleanViews (str "2M") = str "2M" := by decide
    have h2 : upperStr (str "2M") = str "2M" := by decide
    have h3 : (str "2M").contains 'K' = false := by decide
    have h3m : (str "2M").contains 'M' = true := by decide
    have h4 : (str "2M").filter (fun c => c != 'M') = ['2'] := by decide
    have h5 : (['2'] : Str).splitOn '.' = [['2']] := by decide
    have ha2 : allDigits ['2'] = true := by decide
    have hn2 : natOfDigits ['2'] = 2 := by decide
    have h6 : parseFloatS ['2'] = some ((2 : ℚ)) := by
      rw [show parseFloatS ['2'] = parseUnsignedQ ['2'] from rfl]
      rw [parseUnsignedQ, h5]
      simp only [ha2, hn2]
      norm_num
    have harg : ((2 : ℚ)) * 1000000 = ((2000000 : ℤ) : ℚ) := by norm_num
    simp only [parse_views, parseViews?, h1, h2, h3, Bool.false_eq_true, if_false, h3m,
      if_true, h4, h6, Option.map_some', Option.getD_some, harg, truncQ_intCast]

/-- Witness for C9's recovery implication at a concrete malformed string. -/
theorem C9_parse_views_recovery_witness :
    parseViews? (str "n/a") = none ∧ parse_views (str "n/a") = 0 :=
  ⟨by decide, C9_parse_views_recovery.1 (str "n/a") (by decide)⟩

/-! ## Totals as sums over all brands (for the share-map invariants) -/

/-- The per-brand mention totals over all brands sum to `total_mentions`
(the double accumulation reordered). -/
theorem mentions_swap (cfg : Config) (results : List Result) :
    ((all_brands cfg).map (mentionsOf results)).sum = total_mentions cfg results := by
  unfold mentionsOf total_mentions
  exact sum_map_swap (all_brands cfg) results (fun b r => mentionCount b r)

theorem mentions_cast_sum (cfg : Config) (results : List Result) :
    ((all_brands cfg).map fun b => ((mentionsOf results b : ℕ) : ℚ)).sum
      = ((total_mentions cfg results : ℕ) : ℚ) := by
  rw [← mentions_swap, Nat.cast_list_sum, List.map_map]
  rfl

theorem brandViews_of_unmatched (pf : Str) {results : List Result} {b : Str}
    (h : results.any (brandMatch b) = false) : brandViews pf results b = 0 := by
  apply List.sum_eq_zero
  intro x hx
  obtain ⟨r, hr, rfl⟩ := List.mem_map.mp hx
  rw [List.any_eq_false] at h
  simp [h r hr]

/-- The `total_engagement` (summed over the matched brands only) equals the sum of
per-brand view totals over all brands. -/
theorem engagement_total_eq (cfg : Config) (pf : Str) (results : List Result) :
    ((all_brands cfg).map (brandViews pf results)).sum
      = total_engagement cfg pf results := by
  unfold total_engagement matchedBrands
  exact (sum_map_filter_of_zero (fun b hb hfalse => brandViews_of_unmatched pf hfalse)).symm

theorem engagement_cast_sum (cfg : Config) (pf : Str) (results : List Result) :
    ((all_brands cfg).map fun b => ((brandViews pf results b : ℤ) : ℚ)).sum
      = ((total_engagement cfg pf results : ℤ) : ℚ) := by
  rw [← engagement_total_eq, Int.cast_list_sum, List.map_map]
  rfl

theorem enumFrom_snd_mem {α : Type} : ∀ (l : List α) (n : ℕ) (p : ℕ × α),
    p ∈ l.enumFrom n → p.2 ∈ l := by
  intro l
  induction l with
  | nil => intro n p hp; cases hp
  | cons a l ih =>
    intro n p hp
    rcases List.mem_cons.mp hp with h | h
    · subst h; exact List.mem_cons_self a l
    · exact List.mem_cons_of_mem a (ih (n + 1) p h)

theorem brandDominance_of_unmatched {results : List Result} {b : Str}
    (h : results.any (brandMatch b) = false) : brandDominance results b = 0 := by
  apply List.sum_eq_zero
  intro x hx
  obtain ⟨ir, hir, rfl⟩ := List.mem_map.mp hx
  rw [List.any_eq_false] at h
  have : ir.2 ∈ results := enumFrom_snd_mem results 0 ir hir
  simp [h ir.2 this]

theorem dominance_total_eq (cfg : Config) (results : List Result) :
    ((all_brands cfg).map (brandDominance results)).sum = total_dominance cfg results := by
  unfold total_dominance matchedBrands
  exact (sum_map_filter_of_zero (fun b hb hfalse => brandDominance_of_unmatched hfalse)).symm

theorem positive_cast_sum (bs : List Str) (results : List Result) :
    ((mentionedSentBrands bs results).map fun b =>
        (((sentScores results b).countP (fun s => decide ((3 : ℚ) / 5 < s)) : ℕ) : ℚ)).sum
      = ((total_positive_mentions bs results : ℕ) : ℚ) := by
  rw [total_positive_mentions, Nat.cast_list_sum, List.map_map]
  rfl

/-- C2: each produced ShareMap (mention, engagement and dominance percentages,
and share-of-positive-voice) sums to exactly 100 whenever the underlying total
raw signal is positive, and maps every brand to exactly 0 when the total is
zero. -/
theorem C2_share_map_sums (cfg : Config) (pf : Str) (results : List Result) (bs : List Str) :
    (0 < total_mentions cfg results →
      sumVals (count_mentions cfg results pf).percentages = 100)
    ∧ (total_mentions cfg results = 0 →
      ∀ e ∈ (count_mentions cfg results pf).percentages, e.2 = 0)
    ∧ (0 < total_engagement cfg pf results →
      sumVals (calculate_engagement cfg results pf).percentages = 100)
    ∧ (total_engagement cfg pf results = 0 →
      ∀ e ∈ (calculate_engagement cfg results pf).percentages, e.2 = 0)
    ∧ (0 < total_dominance cfg results →
      sumVals (calculate_ranking_dominance cfg results pf).percentages = 100)
    ∧ (total_dominance cfg results = 0 →
      ∀ e ∈ (calculate_ranking_dominance cfg results pf).percentages, e.2 = 0)
    ∧ (0 < total_positive_mentions bs results →
      sumVals (analyze_sentiment bs results pf).positive_sov = 100)
    ∧ (total_positive_mentions bs results = 0 →
      ∀ e ∈ (analyze_sentiment bs results pf).positive_sov, e.2 = 0) := by
  refine ⟨?_, ?_, ?_, ?_, ?_, ?_, ?_, ?_⟩
  · intro h
    show sumVals (mention_percentages cfg results) = 100
    rw [mention_percentages, if_pos h, sumVals_map]
    exact percentages_sum_eq_100 _ _ _ (Nat.cast_ne_zero.mpr h.ne')
      (mentions_cast_sum cfg results)
  · intro h e he
    have he' : e ∈ mention_percentages cfg results := he
    rw [mention_percentages, h] at he'
    simp only [lt_self_iff_false, if_false] at he'
    obtain ⟨b, _, rfl⟩ := List.mem_map.mp he'
    rfl
  · intro h
    show sumVals (engagement_percentages cfg pf results) = 100
    rw [engagement_percentages, if_pos h, sumVals_map]
    exact percentages_sum_eq_100 _ _ _ (Int.cast_ne_zero.mpr h.ne')
      (engagement_cast_sum cfg pf results)
  · intro h e he
    have he' : e ∈ engagement_percentages cfg pf results := he
    rw [engagement_percentages, h] at he'
    simp only [lt_self_iff_false, if_false] at he'
    obtain ⟨b, _, rfl⟩ := List.mem_map.mp he'
    rfl
  · intro h
    show sumVals (dominance_percentages cfg results) = 100
    rw [dominance_percentages, if_pos h, sumVals_map]
    exact percentages_sum_eq_100 _ _ _ h.ne' (dominance_total_eq cfg results)
  · intro h e he
    have he' : e ∈ dominance_percentages cfg results := he
    rw [dominance_percentages, h] at he'
    simp only [lt_self_iff_false, if_false] at he'
    obtain ⟨b, _, rfl⟩ := List.mem_map.mp he'
    rfl
  · intro h
    show sumVals (positive_sov_map bs results) = 100
    rw [positive_sov_map]
    simp only [h, if_true]
    rw [sumVals_map]
    exact percentages_sum_eq_100 _ _ _ (Nat.cast_ne_zero.mpr h.ne')
      (positive_cast_sum bs results)
  · intro h e he
    have he' : e ∈ positive_sov_map bs results := he
    rw [positive_sov_map, h] at he'
    simp only [lt_self_iff_false, if_false] at he'
    obtain ⟨b, _, rfl⟩ := List.mem_map.mp he'
    rfl



/-- Witness for C2: on a concrete result list with positive totals all four
share maps sum to 100, and on the empty result list every entry is 0. -/
theorem C2_share_map_sums_witness :
    sumVals (count_mentions demoCfg demoResults youtube).percentages = 100
    ∧ sumVals (calculate_engagement demoCfg demoResults youtube).percentages = 100
    ∧ sumVals (calculate_ranking_dominance demoCfg demoResults youtube).percentages = 100
    ∧ sumVals (analyze_sentiment demoBrands demoResults youtube).positive_sov = 100
    ∧ (∀ e ∈ (count_mentions demoCfg [] youtube).percentages, e.2 = 0)
    ∧ (∀ e ∈ (calculate_engagement demoCfg [] youtube).percentages, e.2 = 0)
    ∧ (∀ e ∈ (calculate_ranking_dominance demoCfg [] youtube).percentages, e.2 = 0)
    ∧ (∀ e ∈ (analyze_sentiment demoBrands [] youtube).positive_sov, e.2 = 0) := by
  have h1 : 0 < total_mentions demoCfg demoResults := by decide
  have h2 : 0 < total_engagement demoCfg youtube demoResults := by decide
  have hb : brandMatch (str "fan") { title := str "a fan", views := str "200", polarity := 1 }
      = true := by decide
  have hm : matchedBrands demoCfg demoResults = [str "fan"] := by decide
  have h3 : 0 < total_dominance demoCfg demoResults := by
    rw [total_dominance, hm]
    simp only [List.map_cons, List.map_nil, List.sum_cons, List.sum_nil, add_zero,
      brandDominance, demoResults, List.enum, List.enumFrom, hb, if_true, position_score]
    norm_num [lt_max_iff]
  have hsc : sentScores demoResults (str "fan") = [1] := by decide
  have hm2 : mentionedSentBrands demoBrands demoResults = [str "fan"] := by decide
  have hq : (3 : ℚ) / 5 < 1 := by norm_num
  have h4 : 0 < total_positive_mentions demoBrands demoResults := by
    rw [total_positive_mentions, hm2]
    simp only [List.map_cons, List.map_nil, List.sum_cons, List.sum_nil, add_zero, hsc,
      List.countP_cons, List.countP_nil, hq]
    simp
  exact ⟨(C2_share_map_sums demoCfg youtube demoResults demoBrands).1 h1,
    (C2_share_map_sums demoCfg youtube demoResults demoBrands).2.2.1 h2,
    (C2_share_map_sums demoCfg youtube demoResults demoBrands).2.2.2.2.1 h3,
    (C2_share_map_sums demoCfg youtube demoResults demoBrands).2.2.2.2.2.2.1 h4,
    (C2_share_map_sums demoCfg youtube [] demoBrands).2.1 rfl,
    (C2_share_map_sums demoCfg youtube [] demoBrands).2.2.2.1 rfl,
    (C2_share_map_sums demoCfg youtube [] demoBrands).2.2.2.2.2.1 rfl,
    (C2_share_map_sums demoCfg youtube [] demoBrands).2.2.2.2.2.2.2 rfl⟩

/-- The `SoVAgent.analyze_sov` keeps exactly the platforms whose result list is
non-empty, in order. -/
theorem agent_analyze_sov_eq (cfg : Config) (sr : List (Str × List Result)) :
    agent_analyze_sov cfg sr
      = (sr.filter fun pr => !pr.2.isEmpty).map
          (fun pr => (pr.1, analyze_platform cfg pr.1 pr.2)) := by
  induction sr with
  | nil => rfl
  | cons pr sr ih =>
    by_cases h : pr.2.isEmpty
    · simp only [agent_analyze_sov, List.filterMap_cons, h, if_true, List.filter_cons,
        Bool.not_true, Bool.false_eq_true, if_false]
      exact ih
    · simp only [agent_analyze_sov, List.filterMap_cons, h, if_false, List.filter_cons,
        Bool.not_eq_true', Bool.not_eq_false] at *
      simp only [h, if_true, Bool.not_false, List.map_cons]
      exact congrArg _ ih

/-- C5: for every brand of the BrandSet, the overall SoV produced by the
agent pipeline (`analyze_sov` followed by `calculate_overall_sov`) is the
unweighted arithmetic mean of the brand's per-platform weighted composite
scores over exactly the platforms whose result list is non-empty; empty
platforms are excluded from the divisor. -/
theorem C5_overall_sov_mean (cfg : Config) (sr : List (Str × List Result)) (b : Str)
    (hb : b ∈ all_brands cfg)
    (hne : (sr.filter fun pr => !pr.2.isEmpty) ≠ []) :
    ∃ ov, calculate_overall_sov cfg (agent_analyze_sov cfg sr) = some ov
      ∧ getD ov.sov_percentage b 0
        = ((sr.filter fun pr => !pr.2.isEmpty).map
            (fun pr => getD (analyze_platform cfg pr.1 pr.2).sov_metrics.weighted_sov b 0)).sum
          / (((sr.filter fun pr => !pr.2.isEmpty).length : ℕ) : ℚ) := by
  rw [agent_analyze_sov_eq]
  have h1 : ((sr.filter fun pr => !pr.2.isEmpty).map
      (fun pr => (pr.1, analyze_platform cfg pr.1 pr.2))) ≠ [] := by
    intro h
    exact hne (List.map_eq_nil_iff.mp h)
  rw [calculate_overall_sov, if_neg (by simpa [List.isEmpty_iff] using h1)]
  refine ⟨_, rfl, ?_⟩
  rw [getD_map_self _ hb, List.map_map, List.length_map]
  rfl

/-- A value found under key `b` in a map built by pairing each key with `f`
of itself is `f b`. -/
theorem lookup_map_eq_some {α : Type} (f : Str → α) {l : List Str} {b : Str} {v : α}
    (h : lookup (l.map fun x => (x, f x)) b = some v) : v = f b := by
  induction l with
  | nil => simp [lookup] at h
  | cons a l ih =>
    simp only [List.map_cons, lookup] at h
    by_cases hab : a = b
    · rw [if_pos hab] at h
      subst hab
      exact (Option.some_inj.mp h).symm
    · rw [if_neg hab] at h
      exact ih h

/-- Witness for C5 at a concrete input with one non-empty and one empty
platform: only the non-empty one enters the average. -/
theorem C5_overall_sov_mean_witness :
    ∃ ov, calculate_overall_sov demoCfg
        (agent_analyze_sov demoCfg [(youtube, demoResults), (str "google", [])]) = some ov
      ∧ getD ov.sov_percentage (str "fan") 0
        = (([(youtube, demoResults), (str "google", [])].filter fun pr => !pr.2.isEmpty).map
            (fun pr =>
              getD (analyze_platform demoCfg pr.1 pr.2).sov_metrics.weighted_sov (str "fan") 0)).sum
          / ((([(youtube, demoResults), (str "google", [])].filter
              fun pr => !pr.2.isEmpty).length : ℕ) : ℚ) :=
  C5_overall_sov_mean demoCfg [(youtube, demoResults), (str "google", [])] (str "fan")
    (by decide) (by decide)

/-- C7: in the sentiment aggregator a scored mention is counted positive
exactly when its combined polarity is strictly greater than 0.6 = 3/5: the
`positive_count` of any brand present in `sentiment_stats` counts precisely
the results attributed to that brand whose polarity exceeds 3/5; a polarity
of exactly 3/5 is not counted, while 60001/100000 is. -/
theorem C7_positive_strict_threshold :
    (∀ (bs : List Str) (results : List Result) (pf b : Str) (st : SentStat),
      lookup (analyze_sentiment bs results pf).sentiment_stats b = some st →
      st.positive_count
        = results.countP (fun r => sentMatch b r && decide ((3 : ℚ) / 5 < r.polarity)))
    ∧ (analyze_sentiment [str "fan"] [{ title := str "fan", polarity := 3 / 5 }]
        youtube).total_positive_mentions = 0
    ∧ (analyze_sentiment [str "fan"] [{ title := str "fan", polarity := 60001 / 100000 }]
        youtube).total_positive_mentions = 1 := by
  refine ⟨?_, ?_, ?_⟩
  · intro bs results pf b st hst
    have hval : st = sentStatOf results b := lookup_map_eq_some _ hst
    subst hval
    rw [sentStatOf]
    by_cases hsc : (sentScores results b).isEmpty
    · simp only [hsc, if_true]
      have hnil : results.filter (sentMatch b) = [] := by
        have := List.isEmpty_iff.mp hsc
        rw [sentScores] at this
        exact List.map_eq_nil_iff.mp this
      have hnone := List.filter_eq_nil_iff.mp hnil
      symm
      rw [List.countP_eq_zero]
      intro r hr
      simp [hnone r hr]
    · simp only [hsc, Bool.false_eq_true, if_false]
      rw [sentScores, List.countP_map, List.countP_filter]
      apply List.countP_congr
      intro r _
      simp [Function.comp, Bool.and_comm]
  · have hmatch : sentMatch (str "fan") { title := str "fan", polarity := 3 / 5 } = true := by
      decide
    have hm : mentionedSentBrands [str "fan"]
        [{ title := str "fan", polarity := 3 / 5 }] = [str "fan"] := by decide
    have hsc : sentScores [{ title := str "fan", polarity := 3 / 5 }] (str "fan")
        = [3 / 5] := by
      simp [sentScores, List.filter, hmatch]
    have hlt : ¬((3 : ℚ) / 5 < 3 / 5) := lt_irrefl _
    show total_positive_mentions _ _ = 0
    rw [total_positive_mentions, hm]
    simp [hsc, List.countP_cons, hlt]
  · have hmatch : sentMatch (str "fan")
        { title := str "fan", polarity := 60001 / 100000 } = true := by decide
    have hm : mentionedSentBrands [str "fan"]
        [{ title := str "fan", polarity := 60001 / 100000 }] = [str "fan"] := by decide
    have hsc : sentScores [{ title := str "fan", polarity := 60001 / 100000 }] (str "fan")
        = [60001 / 100000] := by
      simp [sentScores, List.filter, hmatch]
    have hlt : (3 : ℚ) / 5 < 60001 / 100000 := by norm_num
    show total_positive_mentions _ _ = 1
    rw [total_positive_mentions, hm]
    simp [hsc, List.countP_cons, hlt]

/-- Witness for C7's characterization at a brand actually present in the
stats. -/
theorem C7_positive_strict_threshold_witness :
    (sentStatOf demoResults (str "fan")).positive_count
      = demoResults.countP
          (fun r => sentMatch (str "fan") r && decide ((3 : ℚ) / 5 < r.polarity)) :=
  C7_positive_strict_threshold.1 demoBrands demoResults youtube (str "fan")
    (sentStatOf demoResults (str "fan")) rfl

/-- C10: the YouTube engagement percentages depend only on the title, snippet
and views string of each result — two result lists that agree on those fields
(likes and comment counts arbitrary) produce identical engagement percentage
maps and totals, so the per-result weighted `engagement_value` has no effect
on them. -/
theorem C10_engagement_percentages_ignore_likes (cfg : Config) (rs₁ rs₂ : List Result)
    (h : List.Forall₂
      (fun a b => a.title = b.title ∧ a.snippet = b.snippet ∧ a.views = b.views) rs₁ rs₂) :
    (calculate_engagement cfg rs₁ youtube).percentages
      = (calculate_engagement cfg rs₂ youtube).percentages
    ∧ (calculate_engagement cfg rs₁ youtube).total_engagement
      = (calculate_engagement cfg rs₂ youtube).total_engagement := by
  have hmatch : ∀ (b : Str) (x y : Result),
      x.title = y.title → x.snippet = y.snippet → brandMatch b x = brandMatch b y := by
    intro b x y ht hs
    rw [brandMatch, brandMatch, textOf, textOf, ht, hs]
  have hbv : ∀ b, brandViews youtube rs₁ b = brandViews youtube rs₂ b := by
    intro b
    induction h with
    | nil => rfl
    | @cons x y l₁ l₂ hxy htail ih =>
      obtain ⟨ht, hs, hv⟩ := hxy
      show ((if brandMatch b x then viewsOf youtube x else 0) + _ : ℤ) = _
      rw [hmatch b x y ht hs, show viewsOf youtube x = viewsOf youtube y from by
        rw [viewsOf, viewsOf, hv]]
      exact congrArg _ ih
  have hany : ∀ b, rs₁.any (brandMatch b) = rs₂.any (brandMatch b) := by
    clear hbv
    intro b
    induction h with
    | nil => rfl
    | @cons x y l₁ l₂ hxy htail ih =>
      obtain ⟨ht, hs, _⟩ := hxy
      simp only [List.any_cons, hmatch b x y ht hs, ih]
  have hbvf : brandViews youtube rs₁ = brandViews youtube rs₂ := funext hbv
  have hmb : matchedBrands cfg rs₁ = matchedBrands cfg rs₂ := by
    rw [matchedBrands, matchedBrands]
    apply List.filter_congr
    intro b _
    rw [hany b]
  have htot : total_engagement cfg youtube rs₁ = total_engagement cfg youtube rs₂ := by
    rw [total_engagement, total_engagement, hmb, hbvf]
  constructor
  · show engagement_percentages cfg youtube rs₁ = engagement_percentages cfg youtube rs₂
    rw [engagement_percentages, engagement_percentages, hbvf, htot]
  · exact htot

/-- Witness for C10: two single-result lists differing only in likes and
comment count give the same percentage map even though their per-result
`engagement_value` differs. -/
theorem C10_engagement_percentages_ignore_likes_witness :
    (calculate_engagement demoCfg
        [{ title := str "a fan", views := str "200", likes := str "10", comment_count := 1 }]
        youtube).percentages
      = (calculate_engagement demoCfg
        [{ title := str "a fan", views := str "200", likes := str "999", comment_count := 50 }]
        youtube).percentages
    ∧ engagement_value youtube
        { title := str "a fan", views := str "200", likes := str "10", comment_count := 1 }
      ≠ engagement_value youtube
        { title := str "a fan", views := str "200", likes := str "999", comment_count := 50 } := by
  constructor
  · exact (C10_engagement_percentages_ignore_likes demoCfg _ _
      (List.Forall₂.cons ⟨rfl, rfl, rfl⟩ List.Forall₂.nil)).1
  · have h200 : parse_views (str "200") = 200 := by decide
    have h10 : parse_views (str "10") = 10 := by decide
    have h999 : parse_views (str "999") = 999 := by decide
    simp only [engagement_value, viewsOf, likesOf, commentsOf, if_pos rfl, h200, h10, h999]
    norm_num

/-! ## Gap-detector support lemmas -/

theorem foldl_maxStep_spec (xs : List (Str × ℚ)) : ∀ acc : Str × ℚ,
    xs.foldl maxStep acc ∈ acc :: xs
    ∧ acc.2 ≤ (xs.foldl maxStep acc).2
    ∧ ∀ y ∈ xs, y.2 ≤ (xs.foldl maxStep acc).2 := by
  induction xs with
  | nil =>
    intro acc
    exact ⟨List.mem_cons_self _ _, le_refl _, by intro y hy; cases hy⟩
  | cons w xs ih =>
    intro acc
    simp only [List.foldl_cons]
    obtain ⟨hmem, hacc, hall⟩ := ih (maxStep acc w)
    have hstep : maxStep acc w = w ∨ maxStep acc w = acc := by
      rw [maxStep]
      by_cases hc : acc.2 < w.2
      · exact Or.inl (if_pos hc)
      · exact Or.inr (if_neg hc)
    have haccle : acc.2 ≤ (maxStep acc w).2 := by
      rw [maxStep]
      by_cases hc : acc.2 < w.2
      · rw [if_pos hc]; exact le_of_lt hc
      · rw [if_neg hc]
    have hwle : w.2 ≤ (maxStep acc w).2 := by
      rw [maxStep]
      by_cases hc : acc.2 < w.2
      · rw [if_pos hc]
      · rw [if_neg hc]; exact le_of_not_lt hc
    refine ⟨?_, le_trans haccle hacc, ?_⟩
    · rcases List.mem_cons.mp hmem with h | h
      · rcases hstep with hs | hs
        · rw [h, hs]
          exact List.mem_cons_of_mem _ (List.mem_cons_self _ _)
        · rw [h, hs]
          exact List.mem_cons_self _ _
      · exact List.mem_cons_of_mem _ (List.mem_cons_of_mem _ h)
    · intro y hy
      rcases List.mem_cons.mp hy with h | h
      · rw [h]
        exact le_trans hwle hacc
      · exact hall y h

theorem maxBySnd_spec {l : List (Str × ℚ)} {t : Str × ℚ} (h : maxBySnd l = some t) :
    t ∈ l ∧ ∀ y ∈ l, y.2 ≤ t.2 := by
  match l with
  | [] => cases h
  | x :: xs =>
    have ht : t = xs.foldl maxStep x := (Option.some_inj.mp h).symm
    obtain ⟨hmem, hacc, hall⟩ := foldl_maxStep_spec xs x
    subst ht
    refine ⟨hmem, ?_⟩
    intro y hy
    rcases List.mem_cons.mp hy with hh | hh
    · exact hh ▸ hacc
    · exact hall y hh

theorem foldl_max_spec (vs : List ℚ) : ∀ v : ℚ,
    (vs.foldl max v = v ∨ vs.foldl max v ∈ vs)
    ∧ v ≤ vs.foldl max v
    ∧ ∀ x ∈ vs, x ≤ vs.foldl max v := by
  induction vs with
  | nil =>
    intro v
    exact ⟨Or.inl rfl, le_refl _, by intro x hx; cases hx⟩
  | cons w vs ih =>
    intro v
    simp only [List.foldl_cons]
    obtain ⟨hmem, hle, hall⟩ := ih (max v w)
    refine ⟨?_, le_trans (le_max_left v w) hle, ?_⟩
    · rcases hmem with h | h
      · rcases max_choice v w with hc | hc
        · exact Or.inl (h.trans hc)
        · right
          rw [h, hc]
          exact List.mem_cons_self _ _
      · exact Or.inr (List.mem_cons_of_mem _ h)
    · intro x hx
      rcases List.mem_cons.mp hx with h | h
      · rw [h]
        exact le_trans (le_max_right v w) hle
      · exact hall x h

theorem maxCompetitorShare_eq {cfg : Config} {m : AList ℚ} {top : Str × ℚ}
    (h : maxBySnd (cfg.COMPETITOR_BRANDS.map fun c => (c, getD m c 0)) = some top) :
    top.2 = maxCompetitorShare cfg m := by
  obtain ⟨hmem, hle⟩ := maxBySnd_spec h
  cases hc : cfg.COMPETITOR_BRANDS with
  | nil => rw [hc] at h; cases h
  | cons c cs =>
    rw [hc] at hmem hle
    rw [maxCompetitorShare, hc]
    simp only [List.map_cons]
    obtain ⟨h1, h2, h3⟩ := foldl_max_spec (cs.map fun c => getD m c 0) (getD m c 0)
    apply le_antisymm
    · obtain ⟨c', hc', hc'eq⟩ := List.mem_map.mp hmem
      have : top.2 = getD m c' 0 := by rw [← hc'eq]
      rw [this]
      rcases List.mem_cons.mp hc' with hcc | hcc
      · exact hcc ▸ h2
      · exact h3 _ (List.mem_map_of_mem _ hcc)
    · rcases h1 with h | h
      · rw [h]
        exact hle _ (List.mem_cons_self _ _)
      · obtain ⟨c'', hc'', hc''eq⟩ := List.mem_map.mp h
        rw [← hc''eq]
        exact hle (c'', getD m c'' 0)
          (List.mem_cons_of_mem _ (List.mem_map_of_mem _ hc''))

theorem gapRecordOf_shape {cfg : Config} {k : Str} {m : AList ℚ} {g : GapRecord}
    (h : gapRecordOf cfg k m = some g) :
    g.keyword = k
    ∧ g.atomberg_sov = getD m cfg.BRAND_NAME 0
    ∧ g.competitor_sov = maxCompetitorShare cfg m
    ∧ g.gap = g.competitor_sov - g.atomberg_sov
    ∧ g.opportunity = (if 20 < g.gap then str "high" else str "medium")
    ∧ g.atomberg_sov + 10 < g.competitor_sov := by
  cases hmax : maxBySnd (cfg.COMPETITOR_BRANDS.map fun c => (c, getD m c 0)) with
  | none => simp [gapRecordOf, hmax] at h
  | some top =>
    simp only [gapRecordOf, hmax] at h
    by_cases hlt : getD m cfg.BRAND_NAME 0 + 10 < top.2
    · rw [if_pos hlt] at h
      have hg := (Option.some_inj.mp h).symm
      subst hg
      exact ⟨rfl, rfl, maxCompetitorShare_eq hmax, rfl, rfl, hlt⟩
    · rw [if_neg hlt] at h
      cases h

theorem gapRecordOf_isSome_iff (cfg : Config) (hcomp : cfg.COMPETITOR_BRANDS ≠ [])
    (k : Str) (m : AList ℚ) :
    (∃ g, gapRecordOf cfg k m = some g)
      ↔ getD m cfg.BRAND_NAME 0 + 10 < maxCompetitorShare cfg m := by
  constructor
  · rintro ⟨g, hg⟩
    obtain ⟨_, ha, hcs, _, _, hlt⟩ := gapRecordOf_shape hg
    rw [← hcs, ← ha]
    exact hlt
  · intro hlt
    cases hc : cfg.COMPETITOR_BRANDS with
    | nil => exact absurd hc hcomp
    | cons c cs =>
      have hmax : ∃ top, maxBySnd (cfg.COMPETITOR_BRANDS.map fun c => (c, getD m c 0))
          = some top := by
        rw [hc, List.map_cons, maxBySnd]
        exact ⟨_, rfl⟩
      obtain ⟨top, htop⟩ := hmax
      have htopval : top.2 = maxCompetitorShare cfg m := maxCompetitorShare_eq htop
      have hval : gapRecordOf cfg k m
          = some { keyword := k, atomberg_sov := getD m cfg.BRAND_NAME 0,
                   top_competitor := top.1, competitor_sov := top.2,
                   gap := top.2 - getD m cfg.BRAND_NAME 0,
                   opportunity := if 20 < top.2 - getD m cfg.BRAND_NAME 0 then str "high"
                     else str "medium" } := by
        simp only [gapRecordOf, htop]
        rw [if_pos (htopval ▸ hlt)]
      exact ⟨_, hval⟩

theorem insertGapDesc_eq (g : GapRecord) (l : List GapRecord) :
    insertGapDesc g l = List.orderedInsert (fun a b => b.gap ≤ a.gap) g l := by
  induction l with
  | nil => rfl
  | cons h t ih =>
    rw [insertGapDesc, List.orderedInsert, ih]

theorem sortGapsDesc_eq (l : List GapRecord) :
    sortGapsDesc l = List.insertionSort (fun a b => b.gap ≤ a.gap) l := by
  induction l with
  | nil => rfl
  | cons a l ih =>
    show insertGapDesc a (sortGapsDesc l) = _
    rw [ih, insertGapDesc_eq, List.insertionSort]

theorem sortGapsDesc_perm (l : List GapRecord) : List.Perm (sortGapsDesc l) l := by
  rw [sortGapsDesc_eq]
  exact List.perm_insertionSort _ l

theorem sortGapsDesc_sorted (l : List GapRecord) :
    List.Pairwise (fun a b => b.gap ≤ a.gap) (sortGapsDesc l) := by
  rw [sortGapsDesc_eq]
  letI : IsTotal GapRecord (fun a b => b.gap ≤ a.gap) := ⟨fun a b => le_total b.gap a.gap⟩
  letI : IsTrans GapRecord (fun a b => b.gap ≤ a.gap) :=
    ⟨fun _ _ _ h1 h2 => le_trans h2 h1⟩
  exact List.sorted_insertionSort _ l

theorem mem_identify_iff (cfg : Config) (ks : List (Str × AList ℚ)) (g : GapRecord) :
    g ∈ identify_content_gaps cfg ks ↔ ∃ p ∈ ks, gapRecordOf cfg p.1 p.2 = some g := by
  rw [identify_content_gaps]
  constructor
  · intro hg
    exact List.mem_filterMap.mp ((sortGapsDesc_perm _).subset hg)
  · intro hex
    exact (sortGapsDesc_perm _).symm.subset (List.mem_filterMap.mpr hex)

/-- C6: for keyword maps with distinct keys and a non-empty competitor list,
the gap detector emits a record for a keyword iff the maximum competitor share
strictly exceeds the focal brand's share plus 10 (a gap of exactly 10 is not
flagged); every emitted record's priority is "high" exactly when its gap
exceeds 20 and "medium" otherwise, and the output is sorted by descending
gap. -/
theorem C6_gap_detector (cfg : Config) (ks : List (Str × AList ℚ))
    (hnd : (ks.map Prod.fst).Nodup) (hcomp : cfg.COMPETITOR_BRANDS ≠ []) :
    (∀ p ∈ ks,
      ((∃ g ∈ identify_content_gaps cfg ks, g.keyword = p.1)
        ↔ getD p.2 cfg.BRAND_NAME 0 + 10 < maxCompetitorShare cfg p.2))
    ∧ (∀ g ∈ identify_content_gaps cfg ks,
        g.gap = g.competitor_sov - g.atomberg_sov
        ∧ g.atomberg_sov + 10 < g.competitor_sov
        ∧ (g.opportunity = str "high" ↔ 20 < g.gap)
        ∧ (g.opportunity = str "medium" ↔ g.gap ≤ 20))
    ∧ List.Pairwise (fun a b => b.gap ≤ a.gap) (identify_content_gaps cfg ks) := by
  refine ⟨?_, ?_, ?_⟩
  · intro p hp
    constructor
    · rintro ⟨g, hg, hk⟩
      obtain ⟨q, hq, hgq⟩ := (mem_identify_iff cfg ks g).mp hg
      have hkq : g.keyword = q.1 := (gapRecordOf_shape hgq).1
      have hpq : q = p := by
        have := List.inj_on_of_nodup_map hnd
        exact this hq hp (by rw [← hkq, hk])
      rw [hpq] at hgq
      exact (gapRecordOf_isSome_iff cfg hcomp p.1 p.2).mp ⟨g, hgq⟩
    · intro hlt
      obtain ⟨g, hg⟩ := (gapRecordOf_isSome_iff cfg hcomp p.1 p.2).mpr hlt
      refine ⟨g, (mem_identify_iff cfg ks g).mpr ⟨p, hp, hg⟩, (gapRecordOf_shape hg).1⟩
  · intro g hg
    obtain ⟨q, _, hgq⟩ := (mem_identify_iff cfg ks g).mp hg
    obtain ⟨_, _, _, hgap, hopp, hstrict⟩ := gapRecordOf_shape hgq
    refine ⟨hgap, hstrict, ?_, ?_⟩
    · constructor
      · intro h
        by_contra hle
        rw [if_neg hle] at hopp
        rw [hopp] at h
        exact absurd h (by decide)
      · intro h
        rw [hopp, if_pos h]
    · constructor
      · intro h
        by_contra hle
        rw [not_le] at hle
        rw [if_pos hle] at hopp
        rw [hopp] at h
        exact absurd h (by decide)
      · intro h
        rw [hopp, if_neg (not_lt.mpr h)]
  · exact sortGapsDesc_sorted _



/-- Witness for C6: a 15-point lead is flagged, an exactly-10-point lead is
not, and the output is sorted by descending gap. -/
theorem C6_gap_detector_witness :
    (∃ g ∈ identify_content_gaps atombergConfig demoKS, g.keyword = str "smart fan")
    ∧ ¬(∃ g ∈ identify_content_gaps atombergConfig demoKS, g.keyword = str "WiFi fan")
    ∧ List.Pairwise (fun a b => b.gap ≤ a.gap)
        (identify_content_gaps atombergConfig demoKS) := by
  have hthm := C6_gap_detector atombergConfig demoKS (by decide) (by decide)
  have hb1 : getD demoMap1 atombergConfig.BRAND_NAME 0 = 30 := by decide
  have hc1 : maxCompetitorShare atombergConfig demoMap1 = 45 := by decide
  have hb2 : getD demoMap2 atombergConfig.BRAND_NAME 0 = 30 := by decide
  have hc2 : maxCompetitorShare atombergConfig demoMap2 = 40 := by decide
  refine ⟨?_, ?_, hthm.2.2⟩
  · refine (hthm.1 (str "smart fan", demoMap1) (by decide)).mpr ?_
    rw [show ((str "smart fan", demoMap1) : Str × AList ℚ).2 = demoMap1 from rfl, hb1, hc1]
    norm_num
  · intro hex
    have := (hthm.1 (str "WiFi fan", demoMap2) (by decide)).mp hex
    rw [show ((str "WiFi fan", demoMap2) : Str × AList ℚ).2 = demoMap2 from rfl, hb2, hc2]
      at this
    norm_num at this

/-! ## The findall scanner counts exactly the word-bounded occurrences -/



/-- No word-bounded match can start inside a run of word characters entered
from a word character: scanning a run `q` only moves the preceding-character
marker to the run's last character. -/
theorem occCount_append_run (p : Str) : ∀ (q : Str), (∀ x ∈ q, isWordChar x = true) →
    ∀ (a : Char), isWordChar a = true →
    ∀ t, occCount p (some a) (q ++ t) = occCount p (some (lastD q a)) t := by
  intro q
  induction q with
  | nil => intro _ a _ t; rfl
  | cons d q' ih =>
    intro hq a ha t
    have hd : isWordChar d = true := hq d (List.mem_cons_self _ _)
    show (if wbMatch p (some a) (d :: (q' ++ t)) then 1 else 0)
        + occCount p (some d) (q' ++ t) = _
    have hbd : isBoundary (some a) (some d) = false := by
      simp [isBoundary, wordOpt, ha, hd]
    have hbm : wbMatch p (some a) (d :: (q' ++ t)) = false := by
      simp [wbMatch, hbd]
    rw [hbm]
    simp only [Bool.false_eq_true, if_false, zero_add]
    rw [ih (fun x hx => hq x (List.mem_cons_of_mem _ hx)) d hd t]
    rfl

/-- Passing over a run of `q.length` characters with the skip counter just
moves the preceding-character marker to the run's last character. -/
theorem findallGo_skip_run (p : Str) : ∀ (q : Str) (prev : Option Char) (t : Str),
    findallGo p q.length prev (q ++ t) = findallGo p 0 (lastO q prev) t := by
  intro q
  induction q with
  | nil => intro prev t; rfl
  | cons d q' ih =>
    intro prev t
    show findallGo p q'.length (some d) (q' ++ t) = _
    rw [ih (some d) t]
    cases q' with
    | nil => rfl
    | cons e q'' => rfl

/-- For a non-empty pattern made of word characters, the non-overlapping
`re.findall` scan counts exactly the positions at which a word-bounded
occurrence starts. -/
theorem findallGo_eq_occCount (p : Str) (hp : p ≠ [])
    (hw : ∀ c ∈ p, isWordChar c = true) :
    ∀ (n : ℕ) (s : Str), s.length ≤ n → ∀ prev,
      findallGo p 0 prev s = occCount p prev s := by
  intro n
  induction n with
  | zero =>
    intro s hs prev
    have hnil : s = [] := List.length_eq_zero.mp (Nat.le_zero.mp hs)
    subst hnil
    rfl
  | succ n ih =>
    intro s hs prev
    match s with
    | [] => rfl
    | c :: rest =>
      cases hm : wbMatch p prev (c :: rest) with
      | false =>
        show (if wbMatch p prev (c :: rest) then 1 + _ else findallGo p 0 (some c) rest)
            = (if wbMatch p prev (c :: rest) then 1 else 0) + occCount p (some c) rest
        rw [hm]
        simp only [Bool.false_eq_true, if_false, zero_add]
        exact ih rest (by simpa using Nat.le_of_succ_le_succ hs) (some c)
      | true =>
        obtain ⟨ph, pt, rfl⟩ : ∃ ph pt, p = ph :: pt := by
          cases p with
          | nil => exact absurd rfl hp
          | cons ph pt => exact ⟨ph, pt, rfl⟩
        have hpre : (ph :: pt).isPrefixOf (c :: rest) = true := by
          have hm' := hm
          rw [wbMatch, Bool.and_eq_true, Bool.and_eq_true] at hm'
          exact hm'.1.1
        obtain ⟨t, ht⟩ : ∃ t, c :: rest = (ph :: pt) ++ t := by
          obtain ⟨t, ht⟩ := List.isPrefixOf_iff_prefix.mp hpre
          exact ⟨t, ht.symm⟩
        have hc : c = ph := by
          injection ht with h1 _
        have hrest : rest = pt ++ t := by
          injection ht with _ h2
        have hlen : (ph :: pt).length - 1 = pt.length := by simp
        show (if wbMatch (ph :: pt) prev (c :: rest) then
            1 + findallGo (ph :: pt) ((ph :: pt).length - 1) (some c) rest
          else findallGo (ph :: pt) 0 (some c) rest)
          = (if wbMatch (ph :: pt) prev (c :: rest) then 1 else 0)
            + occCount (ph :: pt) (some c) rest
        rw [hm]
        simp only [if_true, hlen, hrest]
        rw [findallGo_skip_run (ph :: pt) pt (some c) t]
        have htlen : t.length ≤ n := by
          have h1 : rest.length ≤ n := by simpa using Nat.le_of_succ_le_succ hs
          rw [hrest, List.length_append] at h1
          omega
        rw [ih t htlen (lastO pt (some c))]
        have hwords : ∀ x ∈ pt, isWordChar x = true :=
          fun x hx => hw x (List.mem_cons_of_mem _ hx)
        have hcw : isWordChar c = true := by
          rw [hc]
          exact hw ph (List.mem_cons_self _ _)
        rw [occCount_append_run (ph :: pt) pt hwords c hcw t]
        have hlast : lastO pt (some c) = some (lastD pt c) := by
          cases pt with
          | nil => rfl
          | cons e q'' => rfl
        rw [hlast]

/-- C8: the Mention Counter counts, per brand and result, exactly the number
of case-insensitive word-bounded occurrence positions of the brand in the
concatenated title-and-snippet text (for brand names made of word
characters); the total is the sum of all per-brand counts; "fanatic" yields 0
for brand "fan" while "the Fan is great" yields 1. -/
theorem C8_mention_counter :
    (∀ (b : Str) (r : Result), lowerStr b ≠ [] →
      (∀ c ∈ lowerStr b, isWordChar c = true) →
      mentionCount b r = occCount (lowerStr b) none (textOf r))
    ∧ (∀ (cfg : Config) (results : List Result),
        total_mentions cfg results = ((all_brands cfg).map (mentionsOf results)).sum)
    ∧ mentionCount (str "fan") { title := str "fanatic" } = 0
    ∧ mentionCount (str "fan") { title := str "the Fan is great" } = 1 := by
  refine ⟨?_, ?_, by decide, by decide⟩
  · intro b r hne hw
    exact findallGo_eq_occCount (lowerStr b) hne hw (textOf r).length (textOf r)
      (le_refl _) none
  · intro cfg results
    exact (mentions_swap cfg results).symm

/-- Witness for C8's occurrence characterization at a concrete mixed-case
brand and text. -/
theorem C8_mention_counter_witness :
    mentionCount (str "Fan") { title := str "a fan, a Fan" }
      = occCount (lowerStr (str "Fan")) none (textOf { title := str "a fan, a Fan" }) :=
  C8_mention_counter.1 (str "Fan") { title := str "a fan, a Fan" } (by decide) (by decide)

end SoV
